import Mathlib

/-!
Verification of the AED shock-decision program (`main.cpp`).

The program loads an ECG trace — three parallel vectors `timestamp`,
`datapoint`, `rpeak` — from a whitespace-separated file, checks signal
cleanliness, renders a chart, computes four estimates (median baseline,
mean peak amplitude, beats per minute, standard deviation of deflection
counts) and combines them through a fixed threshold rule.

Doubles are modelled as rationals (`ℚ`); the single square root in the
uniformity estimator lands in `ℝ`.  `vector<int>` peak flags are `List ℤ`.
Indexed accesses `v[i]` are modelled with `List.getD _ _ 0`; separate
"checked" variants return `none` exactly when an access would be out of
bounds, so bounds safety is the statement that they return `some`.
-/

namespace AED

/-! ## Trace loader (main.cpp lines 196-210)

A `Tok` abstracts one extraction from the input stream: `dbl v` is a
token that parses as a double but not as an int, `int n` parses as both,
`bad` parses as neither (including end of file behind it). -/

inductive Tok where
  | dbl (v : ℚ)
  | int (n : ℤ)
  | bad
deriving DecidableEq

/-- Reading a double (`file >> x`) from one token. -/
def tokAsD : Tok → Option ℚ
  | .dbl v => some v
  | .int n => some (n : ℚ)
  | .bad => none

/-- Reading an int (`file >> z`) from one token. -/
def tokAsI : Tok → Option ℤ
  | .int n => some n
  | _ => none

/-- The load loop of `main`: read two doubles, push both on success,
then read one int and push it; any failed read breaks the loop at that
point.  Returns `(timestamp, datapoint, rpeak)`. -/
def loadTrace : List Tok → List ℚ × List ℚ × List ℤ
  | a :: b :: c :: rest =>
    match tokAsD a, tokAsD b with
    | some x, some y =>
      match tokAsI c with
      | some z =>
        let t := loadTrace rest
        (x :: t.1, y :: t.2.1, z :: t.2.2)
      | none => ([x], [y], [])
    | _, _ => ([], [], [])
  | [a, b] =>
    match tokAsD a, tokAsD b with
    | some x, some y => ([x], [y], [])
    | _, _ => ([], [], [])
  | _ => ([], [], [])

/-! ## Step 5: baseline (median), main.cpp lines 36-52 -/

/-- `func_baseline`: sort ascending, take the middle element (odd size)
or the mean of the two middle elements (even size). -/
def func_baseline (datapoint : List ℚ) : ℚ :=
  let sorted := List.insertionSort (· ≤ ·) datapoint
  let n := datapoint.length / 2
  if datapoint.length % 2 = 1 then sorted.getD n 0
  else (sorted.getD (n - 1) 0 + sorted.getD n 0) / 2

/-- The statistical median as the spec words it: sort a working copy
ascending (here with a different sorting algorithm), middle element for
odd length, average of the two middle elements for even length. -/
def medianSpec (l : List ℚ) : ℚ :=
  let s := l.mergeSort fun a b => decide (a ≤ b)
  let n := l.length / 2
  if l.length % 2 = 1 then s.getD n 0
  else (s.getD (n - 1) 0 + s.getD n 0) / 2

/-! ## Step 6: average amplitude, main.cpp lines 63-80 -/

/-- The loop of `func_avg_amp`: walk `rpeak`, and at every flag equal to
1 add `|datapoint[i] - baseline|` to the total and bump the counter.
`datapoint` is consumed in lockstep, `headD _ 0` modelling
`datapoint[i]`. -/
def avgAmpLoop (b : ℚ) : List ℤ → List ℚ → ℚ × ℕ → ℚ × ℕ
  | [], _, s => s
  | r :: rs, ds, (total, k) =>
    if r = 1 then avgAmpLoop b rs ds.tail (total + |ds.headD 0 - b|, k + 1)
    else avgAmpLoop b rs ds.tail (total, k)

/-- `func_avg_amp`: mean of `|datapoint[i] - baseline|` over flagged
indices; 0 when no flag is set. -/
def func_avg_amp (datapoint : List ℚ) (rpeak : List ℤ) (baseline : ℚ) : ℚ :=
  let s := avgAmpLoop baseline rpeak datapoint (0, 0)
  if s.2 ≠ 0 then s.1 / (s.2 : ℚ) else 0

/-- The absolute deviations `|datapoint[i] - baseline|` at exactly the
flagged indices, in index order. -/
def peakDevs (datapoint : List ℚ) (rpeak : List ℤ) (baseline : ℚ) : List ℚ :=
  (datapoint.zip rpeak).filterMap fun p => if p.2 = 1 then some |p.1 - baseline| else none

/-! ## Step 7: beats per minute, main.cpp lines 92-110 -/

/-- The loop of `func_bpm`: state is `(timebetween, prev, cnt)` with
`prev` initialised to the in-band sentinel `-1.0`.  At every flag equal
to 1, if `prev` is not the sentinel the interval `timestamp[i] - prev`
is accumulated and counted, and `prev` becomes `timestamp[i]`. -/
def bpmLoop : List ℤ → List ℚ → ℚ × ℚ × ℕ → ℚ × ℚ × ℕ
  | [], _, s => s
  | r :: rs, ts, (tb, prev, cnt) =>
    if r = 1 then
      if prev ≠ -1 then bpmLoop rs ts.tail (tb + (ts.headD 0 - prev), ts.headD 0, cnt + 1)
      else bpmLoop rs ts.tail (tb, ts.headD 0, cnt)
    else bpmLoop rs ts.tail (tb, prev, cnt)

/-- `func_bpm`: 0 when fewer than 2 intervals were counted, otherwise
`60 / (timebetween / cnt)`. -/
def func_bpm (timestamp : List ℚ) (rpeak : List ℤ) : ℚ :=
  let s := bpmLoop rpeak timestamp (0, -1, 0)
  if s.2.2 < 2 then 0 else 60 / (s.1 / (s.2.2 : ℚ))

/-- Timestamps of the flagged samples, in index order. -/
def peakTimes (timestamp : List ℚ) (rpeak : List ℤ) : List ℚ :=
  (timestamp.zip rpeak).filterMap fun p => if p.2 = 1 then some p.1 else none

/-- Sum of the differences of consecutive elements. -/
def sumDiffs : List ℚ → ℚ
  | [] => 0
  | [_] => 0
  | x :: y :: rest => (y - x) + sumDiffs (y :: rest)

/-- The bpm loop restricted to the flagged timestamps: what `bpmLoop`
does once the unflagged samples are discarded. -/
def bpmCore : List ℚ → ℚ × ℚ × ℕ → ℚ × ℚ × ℕ
  | [], s => s
  | t :: rest, (tb, prev, cnt) =>
    if prev ≠ -1 then bpmCore rest (tb + (t - prev), t, cnt + 1)
    else bpmCore rest (tb, t, cnt)

/-! ## Step 8: uniformity, main.cpp lines 129-169 -/

/-- One baseline crossing between two adjacent amplitudes: one strictly
above the baseline and the other at or below it. -/
def crossed (baseline y1 y2 : ℚ) : Bool :=
  (decide (baseline < y1) && decide (y2 ≤ baseline)) ||
  (decide (y1 ≤ baseline) && decide (baseline < y2))

/-- The inner `j` loop of `func_uniformity`: count crossings between
`datapoint[j]` and `datapoint[j+1]` for `j` from `j0` up to `i`
(exclusive). -/
def defLoop (d : List ℚ) (b : ℚ) (i : ℕ) (j : ℕ) (cnt : ℕ) : ℕ :=
  if h : j < i then
    defLoop d b i (j + 1) (cnt + (if crossed b (d.getD j 0) (d.getD (j + 1) 0) then 1 else 0))
  else cnt
termination_by i - j

/-- The number of adjacent positions `(j, j+1)` with `p ≤ j < c` whose
amplitudes cross the baseline — the deflection count of one inter-peak
window, as counted by the inner loop. -/
def deflCount (d : List ℚ) (b : ℚ) (p c : ℕ) : ℕ :=
  ((List.range' p (c - p)).filter fun j => crossed b (d.getD j 0) (d.getD (j + 1) 0)).length

/-- The outer `i` loop of `func_uniformity`: walk `rpeak` with running
index `i`, previous peak index `prev_peak` (sentinel `-1`), the list of
deflection counts collected so far and the number of flags seen. -/
def uniLoop (d : List ℚ) (b : ℚ) : List ℤ → ℕ → ℤ → List ℕ → ℕ → List ℕ × ℕ
  | [], _, _, count, rpeak1 => (count, rpeak1)
  | r :: rs, i, prev_peak, count, rpeak1 =>
    if r = 1 then
      if prev_peak ≠ -1 then
        uniLoop d b rs (i + 1) (i : ℤ) (count ++ [defLoop d b i prev_peak.toNat 0]) (rpeak1 + 1)
      else uniLoop d b rs (i + 1) (i : ℤ) count (rpeak1 + 1)
    else uniLoop d b rs (i + 1) prev_peak count rpeak1

/-- Mean of a list of counts, as a rational. -/
def popMean (l : List ℕ) : ℚ := (l.map fun x : ℕ => (x : ℚ)).sum / (l.length : ℚ)

/-- Population variance: sum of squared deviations divided by the
number of elements (not one less). -/
def popVar (l : List ℕ) : ℚ :=
  (l.map fun x : ℕ => ((x : ℚ) - popMean l) * ((x : ℚ) - popMean l)).sum / (l.length : ℚ)

/-- `func_uniformity`: 0 when fewer than 2 flags were seen, otherwise
the square root of the population variance of the deflection counts. -/
noncomputable def func_uniformity (datapoint : List ℚ) (rpeak : List ℤ) (baseline : ℚ) : ℝ :=
  let s := uniLoop datapoint baseline rpeak 0 (-1) [] 0
  if s.2 < 2 then 0 else Real.sqrt (popVar s.1)

/-- Flagged indices of `rpeak`, counting from `i`. -/
def peakIdxsFrom : ℕ → List ℤ → List ℕ
  | _, [] => []
  | i, r :: rs => if r = 1 then i :: peakIdxsFrom (i + 1) rs else peakIdxsFrom (i + 1) rs

/-- Flagged indices of `rpeak`, in increasing order. -/
def peakIdxs (rpeak : List ℤ) : List ℕ := peakIdxsFrom 0 rpeak

/-- One deflection count per pair of consecutive flagged indices, via
the inner loop. -/
def consCounts (d : List ℚ) (b : ℚ) : List ℕ → List ℕ
  | [] => []
  | [_] => []
  | p :: q :: rest => defLoop d b q p 0 :: consCounts d b (q :: rest)

/-! ## Checked variants

The same loops, but every `v[i]` becomes a lookup with `List.get?` and a
division only happens behind its guard; `none` means some access fell
out of bounds.  `chk = some run` is the bounds-safety statement. -/

/-- Checked `avgAmpLoop`. -/
def avgAmpLoopC (b : ℚ) : List ℤ → List ℚ → ℚ × ℕ → Option (ℚ × ℕ)
  | [], _, s => some s
  | r :: rs, ds, (total, k) =>
    if r = 1 then
      match ds.head? with
      | some y => avgAmpLoopC b rs ds.tail (total + |y - b|, k + 1)
      | none => none
    else avgAmpLoopC b rs ds.tail (total, k)

/-- Checked `func_avg_amp`. -/
def func_avg_amp_chk (datapoint : List ℚ) (rpeak : List ℤ) (baseline : ℚ) : Option ℚ :=
  (avgAmpLoopC baseline rpeak datapoint (0, 0)).map fun s =>
    if s.2 ≠ 0 then s.1 / (s.2 : ℚ) else 0

/-- Checked `bpmLoop`. -/
def bpmLoopC : List ℤ → List ℚ → ℚ × ℚ × ℕ → Option (ℚ × ℚ × ℕ)
  | [], _, s => some s
  | r :: rs, ts, (tb, prev, cnt) =>
    if r = 1 then
      match ts.head? with
      | some t =>
        if prev ≠ -1 then bpmLoopC rs ts.tail (tb + (t - prev), t, cnt + 1)
        else bpmLoopC rs ts.tail (tb, t, cnt)
      | none => none
    else bpmLoopC rs ts.tail (tb, prev, cnt)

/-- Checked `func_bpm`. -/
def func_bpm_chk (timestamp : List ℚ) (rpeak : List ℤ) : Option ℚ :=
  (bpmLoopC rpeak timestamp (0, -1, 0)).map fun s =>
    if s.2.2 < 2 then 0 else 60 / (s.1 / (s.2.2 : ℚ))

/-- Checked `defLoop`. -/
def defLoopC (d : List ℚ) (b : ℚ) (i : ℕ) (j : ℕ) (cnt : ℕ) : Option ℕ :=
  if h : j < i then
    match d.get? j, d.get? (j + 1) with
    | some y1, some y2 => defLoopC d b i (j + 1) (cnt + (if crossed b y1 y2 then 1 else 0))
    | _, _ => none
  else some cnt
termination_by i - j

/-- Checked `uniLoop`. -/
def uniLoopC (d : List ℚ) (b : ℚ) : List ℤ → ℕ → ℤ → List ℕ → ℕ → Option (List ℕ × ℕ)
  | [], _, _, count, rpeak1 => some (count, rpeak1)
  | r :: rs, i, prev_peak, count, rpeak1 =>
    if r = 1 then
      if prev_peak ≠ -1 then
        match defLoopC d b i prev_peak.toNat 0 with
        | some cnt => uniLoopC d b rs (i + 1) (i : ℤ) (count ++ [cnt]) (rpeak1 + 1)
        | none => none
      else uniLoopC d b rs (i + 1) (i : ℤ) count (rpeak1 + 1)
    else uniLoopC d b rs (i + 1) prev_peak count rpeak1

/-- Checked `func_uniformity`. -/
noncomputable def func_uniformity_chk (datapoint : List ℚ) (rpeak : List ℤ) (baseline : ℚ) :
    Option ℝ :=
  (uniLoopC datapoint baseline rpeak 0 (-1) [] 0).map fun s =>
    if s.2 < 2 then 0 else Real.sqrt (popVar s.1)

/-! ## Step 9: shock decision, main.cpp lines 251-258 -/

open Classical in
/-- The decision at main.cpp line 252: do not shock when the amplitude
is weak, the baseline drifts, the rhythm is disorganised but not fast,
or the rate is low; otherwise shock. -/
noncomputable def shockVerdict (baseline avg_amp bpm : ℚ) (uniformity : ℝ) : String :=
  if avg_amp < 0.1 ∨ baseline > 1.0 ∨ (uniformity ≥ 1.0 ∧ bpm < 200.0) ∨ bpm ≤ 150.0 then
    "NO, DO NOT SHOCK"
  else "YES, SHOCK!"

/-! ## The pipeline of `main`, after a successful file open

Events record what `main` does in order: console lines, the call to the
visualizer, and each estimator call with the value it produced.  The
quality gate `clean_ecg` lives in `cleaner.h` (not part of this
repository) and is passed in as an opaque boolean predicate on the
amplitude sequence, exactly as the spec treats it. -/

inductive Ev where
  | line (s : String)
  | visualize
  | baseline (v : ℚ)
  | avgAmp (v : ℚ)
  | bpm (v : ℚ)
  | uniformity (v : ℝ)

open Classical in
/-- Steps 2-9 of `main` (lines 177-271): load, gate, visualize,
estimate, decide.  A not-clean verdict returns before the visualizer
and the estimators. -/
noncomputable def pipeline (toks : List Tok) (clean_ecg : List ℚ → Bool) : List Ev :=
  let L := loadTrace toks
  let timestamp := L.1
  let datapoint := L.2.1
  let rpeak := L.2.2
  Ev.line "** Starting AED Software **" :: Ev.line "" ::
  (if clean_ecg datapoint then
    let baseline := func_baseline datapoint
    let avg_amp := func_avg_amp datapoint rpeak baseline
    let bpm := func_bpm timestamp rpeak
    let uniformity := func_uniformity datapoint rpeak baseline
    [Ev.line "Is signal clean? YES",
     Ev.visualize,
     Ev.baseline baseline,
     Ev.avgAmp avg_amp,
     Ev.bpm bpm,
     Ev.uniformity uniformity,
     Ev.line ("Organized? " ++ (if uniformity < 1.0 then "YES" else "NO")),
     Ev.line ("Shock patient? " ++ shockVerdict baseline avg_amp bpm uniformity),
     Ev.line "",
     Ev.line "** Done **"]
  else
    [Ev.line "Is signal clean? NO, DO NOT SHOCK", Ev.line "", Ev.line "** Done **"])

/-! ## End-to-end scenario A (spec section 8) -/

/-- Scenario A timestamps: 0,1,...,9 seconds. -/
def tsA : List ℚ := [0, 1, 2, 3, 4, 5, 6, 7, 8, 9]

/-- Scenario A amplitudes: alternating 0.0 / 2.0. -/
def dA : List ℚ := [0, 2, 0, 2, 0, 2, 0, 2, 0, 2]

/-- Scenario A peak flags: true at indices 0, 2, 4, 6, 8. -/
def rA : List ℤ := [1, 0, 1, 0, 1, 0, 1, 0, 1, 0]

/-! ## Loader shape -/

theorem loadTrace_shape (toks : List Tok) :
    (loadTrace toks).1.length = (loadTrace toks).2.1.length ∧
    (loadTrace toks).2.2.length ≤ (loadTrace toks).1.length ∧
    (loadTrace toks).1.length ≤ (loadTrace toks).2.2.length + 1 := by
  induction toks using loadTrace.induct with
  | case1 a b c rest x y hy hx z hz ih =>
    simp [loadTrace, hx, hy, hz]
    omega
  | case2 a b c rest x y hy hx hz =>
    simp [loadTrace, hx, hy, hz]
  | case3 a b c rest h =>
    cases ha : tokAsD a with
    | none => simp [loadTrace, ha]
    | some x =>
      cases hb : tokAsD b with
      | none => simp [loadTrace, ha, hb]
      | some y => exact (h x y ha hb).elim
  | case4 a b x y hy hx =>
    simp [loadTrace, hx, hy]
  | case5 a b h =>
    cases ha : tokAsD a with
    | none => simp [loadTrace, ha]
    | some x =>
      cases hb : tokAsD b with
      | none => simp [loadTrace, ha, hb]
      | some y => exact (h x y ha hb).elim
  | case6 t h1 h2 =>
    match t, h1, h2 with
    | [], _, _ => simp [loadTrace]
    | [a], _, _ => simp [loadTrace]
    | [a, b], _, h2 => exact (h2 a b rfl).elim
    | a :: b :: c :: rest, h1, _ => exact (h1 a b c rest rfl).elim

/-- C3, as stated: the three sequences always come out the same length.
False: a file whose last record stops after the two numeric fields
leaves the peak-flag vector one element short. -/
theorem loader_lengths_cex :
    ¬ ((loadTrace [Tok.dbl 0, Tok.dbl 1]).1.length =
       (loadTrace [Tok.dbl 0, Tok.dbl 1]).2.2.length) := by
  simp [loadTrace, tokAsD]

/-- C3, amended: when the loader finishes, timestamps and amplitudes
have identical length, and the peak-flag sequence has the same length
or exactly one element fewer. -/
theorem loader_lengths (toks : List Tok) :
    (loadTrace toks).1.length = (loadTrace toks).2.1.length ∧
    ((loadTrace toks).2.2.length = (loadTrace toks).1.length ∨
     (loadTrace toks).1.length = (loadTrace toks).2.2.length + 1) := by
  have h := loadTrace_shape toks
  exact ⟨h.1, by omega⟩

/-! ## Amplitude estimator -/

theorem avgAmpLoop_eq (b : ℚ) :
    ∀ (r : List ℤ) (d : List ℚ), r.length ≤ d.length → ∀ tk : ℚ × ℕ,
      avgAmpLoop b r d tk = (tk.1 + (peakDevs d r b).sum, tk.2 + (peakDevs d r b).length) := by
  intro r
  induction r with
  | nil => intro d _ tk; simp [avgAmpLoop, peakDevs]
  | cons r rs ih =>
    intro d hlen tk
    match d with
    | [] => simp at hlen
    | y :: ds =>
      simp only [List.length_cons, Nat.add_le_add_iff_right] at hlen
      by_cases hr : r = 1
      · simp only [avgAmpLoop, hr, if_pos rfl, List.tail_cons]
        rw [ih ds hlen]
        simp [peakDevs, List.filterMap_cons, hr]
        constructor
        · ring
        · omega
      · simp only [avgAmpLoop, if_neg hr, List.tail_cons]
        rw [ih ds hlen]
        simp [peakDevs, List.filterMap_cons, hr]

/-- C6: `func_avg_amp` is the mean of `|amplitude[i] - baseline|` over
exactly the flagged indices, and exactly 0 when no index is flagged. -/
theorem avg_amp_spec (d : List ℚ) (r : List ℤ) (b : ℚ) (h : r.length = d.length) :
    (peakDevs d r b = [] → func_avg_amp d r b = 0) ∧
    (peakDevs d r b ≠ [] →
      func_avg_amp d r b = (peakDevs d r b).sum / ((peakDevs d r b).length : ℚ)) := by
  have hloop : avgAmpLoop b r d 0 = ((peakDevs d r b).sum, (peakDevs d r b).length) := by
    simpa using avgAmpLoop_eq b r d (le_of_eq h) (0, 0)
  constructor
  · intro hnil
    simp [func_avg_amp, hloop, hnil]
  · intro hne
    have hlen : (peakDevs d r b).length ≠ 0 := fun hc => hne (List.length_eq_zero.mp hc)
    simp [func_avg_amp, hloop, hlen]

/-- Witness for C6 on a concrete input: one flagged index out of two. -/
theorem avg_amp_spec_witness :
    ([(1 : ℤ), 0] : List ℤ).length = ([4, 9] : List ℚ).length ∧
    peakDevs [4, 9] [1, 0] 2 ≠ [] ∧
    func_avg_amp [4, 9] [1, 0] 2 =
      (peakDevs [4, 9] [1, 0] 2).sum / ((peakDevs [4, 9] [1, 0] 2).length : ℚ) := by
  refine ⟨rfl, ?_, ?_⟩
  · simp [peakDevs]
  · exact (avg_amp_spec [4, 9] [1, 0] 2 rfl).2 (by simp [peakDevs])

/-! ## Rate estimator -/

theorem bpmLoop_eq_core :
    ∀ (r : List ℤ) (ts : List ℚ), r.length ≤ ts.length → ∀ s : ℚ × ℚ × ℕ,
      bpmLoop r ts s = bpmCore (peakTimes ts r) s := by
  intro r
  induction r with
  | nil => intro ts _ s; simp [bpmLoop, bpmCore, peakTimes]
  | cons r rs ih =>
    intro ts hlen s
    match ts with
    | [] => simp at hlen
    | t :: ts' =>
      simp only [List.length_cons, Nat.add_le_add_iff_right] at hlen
      obtain ⟨tb, prev, cnt⟩ := s
      by_cases hr : r = 1 <;> by_cases hp : prev = -1 <;>
        simp [bpmLoop, bpmCore, peakTimes, List.filterMap_cons, hr, hp, ih ts' hlen]

theorem sumDiffs_cons (x : ℚ) (l : List ℚ) : sumDiffs (x :: l) = l.getLastD x - x := by
  induction l generalizing x with
  | nil => simp [sumDiffs, List.getLastD]
  | cons y rest ih => rw [sumDiffs, ih y, List.getLastD_cons]; ring

theorem getLastD_ne_of (l : List ℚ) (d : ℚ) (hd : d ≠ -1) (hl : (-1 : ℚ) ∉ l) :
    l.getLastD d ≠ -1 := by
  induction l generalizing d with
  | nil => simpa [List.getLastD]
  | cons y rest ih =>
    rw [List.getLastD_cons]
    exact ih y (fun hc => hl (by simp [hc])) fun hc => hl (List.mem_cons_of_mem _ hc)

theorem getLastD_append_cons (l₁ : List ℚ) (x : ℚ) (l₂ : List ℚ) (d : ℚ) :
    (l₁ ++ x :: l₂).getLastD d = l₂.getLastD x := by
  induction l₁ generalizing d with
  | nil => rw [List.nil_append, List.getLastD_cons]
  | cons a l ih => rw [List.cons_append, List.getLastD_cons]; exact ih a

theorem bpmCore_sentinel_free :
    ∀ (l : List ℚ) (tb prev : ℚ) (cnt : ℕ), prev ≠ -1 → (-1 : ℚ) ∉ l →
      bpmCore l (tb, prev, cnt) =
        (tb + (l.getLastD prev - prev), l.getLastD prev, cnt + l.length) := by
  intro l
  induction l with
  | nil => intro tb prev cnt _ _; simp [bpmCore, List.getLastD]
  | cons t rest ih =>
    intro tb prev cnt hp hm
    have ht : t ≠ -1 := fun hc => hm (by simp [hc])
    have hm' : (-1 : ℚ) ∉ rest := fun hc => hm (List.mem_cons_of_mem _ hc)
    rw [bpmCore, if_pos hp, ih (tb + (t - prev)) t (cnt + 1) ht hm', List.getLastD_cons]
    simp only [Prod.mk.injEq, List.length_cons]
    exact ⟨by ring, by simp, by omega⟩

theorem bpmCore_append (l₁ l₂ : List ℚ) : ∀ s, bpmCore (l₁ ++ l₂) s = bpmCore l₂ (bpmCore l₁ s) := by
  induction l₁ with
  | nil => intro s; simp [bpmCore]
  | cons t rest ih =>
    intro s
    obtain ⟨tb, prev, cnt⟩ := s
    by_cases hp : prev = -1 <;> simp [bpmCore, hp, ih]

/-- C9: the timestamp `-1.0` acts as an in-band sentinel in `func_bpm`.
If no flagged timestamp equals `-1.0`, every consecutive inter-peak
interval is accumulated (`timebetween` is the full sum of consecutive
differences and `cnt` counts all of them); if one flagged timestamp is
exactly `-1.0` and is followed by another peak, the interval that
begins at that sample is silently dropped from both the sum and the
count. -/
theorem bpm_sentinel (ts : List ℚ) (rs : List ℤ) (h : rs.length = ts.length) :
    ((-1 : ℚ) ∉ peakTimes ts rs →
      (bpmLoop rs ts (0, -1, 0)).1 = sumDiffs (peakTimes ts rs) ∧
      (bpmLoop rs ts (0, -1, 0)).2.2 = (peakTimes ts rs).length - 1) ∧
    (∀ (p₁ : List ℚ) (q : ℚ) (p₂ : List ℚ),
      peakTimes ts rs = p₁ ++ (-1 : ℚ) :: q :: p₂ →
      (-1 : ℚ) ∉ p₁ → (-1 : ℚ) ∉ q :: p₂ →
      (bpmLoop rs ts (0, -1, 0)).1 = sumDiffs (peakTimes ts rs) - (q - (-1)) ∧
      (bpmLoop rs ts (0, -1, 0)).2.2 = p₁.length + p₂.length) := by
  rw [bpmLoop_eq_core rs ts (le_of_eq h)]
  constructor
  · intro hmem
    match hpts : peakTimes ts rs with
    | [] => simp [bpmCore, sumDiffs]
    | t :: rest =>
      rw [hpts] at hmem
      have ht : t ≠ -1 := fun hc => hmem (by simp [hc])
      have hm' : (-1 : ℚ) ∉ rest := fun hc => hmem (List.mem_cons_of_mem _ hc)
      rw [bpmCore, if_neg (by simp), bpmCore_sentinel_free rest 0 t 0 ht hm']
      simp [sumDiffs_cons]
  · intro p₁ q p₂ hpts h1 h2
    have hq : q ≠ -1 := fun hc => h2 (by simp [hc])
    have hp2 : (-1 : ℚ) ∉ p₂ := fun hc => h2 (List.mem_cons_of_mem _ hc)
    rw [hpts]
    match p₁, h1 with
    | [], _ =>
      rw [List.nil_append, bpmCore, if_neg (by simp), bpmCore, if_neg (by simp),
        bpmCore_sentinel_free p₂ 0 q 0 hq hp2]
      constructor
      · rw [sumDiffs_cons, List.getLastD_cons]
        simp
      · simp
    | a :: p₁', h1 =>
      have ha : a ≠ -1 := fun hc => h1 (by simp [hc])
      have h1' : (-1 : ℚ) ∉ p₁' := fun hc => h1 (List.mem_cons_of_mem _ hc)
      rw [List.cons_append, bpmCore, if_neg (by simp),
        bpmCore_append p₁' ((-1 : ℚ) :: q :: p₂) (0, a, 0),
        bpmCore_sentinel_free p₁' 0 a 0 ha h1']
      have hlast : p₁'.getLastD a ≠ -1 := getLastD_ne_of p₁' a ha h1'
      rw [bpmCore, if_pos hlast, bpmCore, if_neg (by simp),
        bpmCore_sentinel_free p₂ (0 + (p₁'.getLastD a - a) + (-1 - p₁'.getLastD a)) q
          (0 + p₁'.length + 1) hq hp2]
      constructor
      · rw [sumDiffs_cons, getLastD_append_cons, List.getLastD_cons]
        simp
        ring
      · simp

/-- Witness for C9: both halves applied at concrete traces.  With peaks
at times 0 and 2 (no sentinel) the interval 2 is counted; with peak
times 2, -1, 3, 7 the interval from the `-1.0`-stamped peak to the next
(3 - (-1) = 4) vanishes from the sum and the count. -/
theorem bpm_sentinel_witness :
    (([1, 1] : List ℤ).length = ([0, 2] : List ℚ).length ∧
      (-1 : ℚ) ∉ peakTimes [0, 2] [1, 1] ∧
      (bpmLoop [1, 1] [0, 2] (0, -1, 0)).1 = sumDiffs (peakTimes [0, 2] [1, 1]) ∧
      (bpmLoop [1, 1] [0, 2] (0, -1, 0)).2.2 = (peakTimes [0, 2] [1, 1]).length - 1) ∧
    (([1, 1, 1, 1] : List ℤ).length = ([2, -1, 3, 7] : List ℚ).length ∧
      peakTimes [2, -1, 3, 7] [1, 1, 1, 1] = [2] ++ (-1 : ℚ) :: (3 : ℚ) :: [7] ∧
      (bpmLoop [1, 1, 1, 1] [2, -1, 3, 7] (0, -1, 0)).1 =
        sumDiffs (peakTimes [2, -1, 3, 7] [1, 1, 1, 1]) - ((3 : ℚ) - (-1)) ∧
      (bpmLoop [1, 1, 1, 1] [2, -1, 3, 7] (0, -1, 0)).2.2 = [(2 : ℚ)].length + [(7 : ℚ)].length) := by
  constructor
  · have h := (bpm_sentinel [0, 2] [1, 1] rfl).1 (by simp [peakTimes]; norm_num)
    exact ⟨rfl, by simp [peakTimes]; norm_num, h.1, h.2⟩
  · have h := (bpm_sentinel [2, -1, 3, 7] [1, 1, 1, 1] rfl).2 [2] 3 [7]
      (by simp [peakTimes]) (by norm_num) (by norm_num)
    exact ⟨rfl, by simp [peakTimes], h.1, h.2⟩

/-- C1 at the failing input: two flagged peaks with timestamps 0 and 1
(so T = 1) make `func_bpm` return 0, not the 60 / T = 60 the claim and
the function's own documentation promise: the guard `cnt < 2` tests the
number of accumulated intervals, which is peaks - 1. -/
theorem bpm_two_peaks_zero :
    func_bpm [0, 1] [1, 1] = 0 ∧ func_bpm [0, 1] [1, 1] ≠ 60 := by
  have h0 : func_bpm [0, 1] [1, 1] = 0 := by simp [func_bpm, bpmLoop]
  refine ⟨h0, by rw [h0]; norm_num⟩

/-! ## Uniformity estimator -/

theorem defLoop_eq (d : List ℚ) (b : ℚ) (i : ℕ) :
    ∀ (n j cnt : ℕ), i - j = n → defLoop d b i j cnt = cnt + deflCount d b j i := by
  intro n
  induction n with
  | zero =>
    intro j cnt hn
    rw [defLoop, dif_neg (by omega)]
    simp [deflCount, hn]
  | succ n ihn =>
    intro j cnt hn
    have hj : j < i := by omega
    rw [defLoop, dif_pos hj, ihn (j + 1) _ (by omega)]
    have hsplit : deflCount d b j i =
        (if crossed b (d.getD j 0) (d.getD (j + 1) 0) then 1 else 0) + deflCount d b (j + 1) i := by
      unfold deflCount
      rw [hn, List.range'_succ, List.filter_cons]
      have hn' : i - (j + 1) = n := by omega
      rw [hn']
      by_cases hcb : crossed b (d.getD j 0) (d.getD (j + 1) 0) = true
      · rw [if_pos hcb, if_pos hcb]
        simp
        omega
      · rw [if_neg hcb, if_neg hcb]
        simp
    omega

theorem uniLoop_natPrev (d : List ℚ) (b : ℚ) :
    ∀ (rs : List ℤ) (i p : ℕ) (count : List ℕ) (k : ℕ),
      uniLoop d b rs i ((p : ℕ) : ℤ) count k =
        (count ++ consCounts d b (p :: peakIdxsFrom i rs), k + (peakIdxsFrom i rs).length) := by
  intro rs
  induction rs with
  | nil => intro i p count k; simp [uniLoop, peakIdxsFrom, consCounts]
  | cons r rs ih =>
    intro i p count k
    by_cases hr : r = 1
    · rw [uniLoop, if_pos hr, if_pos (by omega), Int.toNat_natCast, ih (i + 1) i]
      rw [peakIdxsFrom, if_pos hr, consCounts]
      simp [List.append_assoc]
      omega
    · rw [uniLoop, if_neg hr, ih (i + 1) p, peakIdxsFrom, if_neg hr]

theorem uniLoop_run (d : List ℚ) (b : ℚ) :
    ∀ (rs : List ℤ) (i : ℕ) (count : List ℕ) (k : ℕ),
      uniLoop d b rs i (-1) count k =
        (count ++ consCounts d b (peakIdxsFrom i rs), k + (peakIdxsFrom i rs).length) := by
  intro rs
  induction rs with
  | nil => intro i count k; simp [uniLoop, peakIdxsFrom, consCounts]
  | cons r rs ih =>
    intro i count k
    by_cases hr : r = 1
    · rw [uniLoop, if_pos hr, if_neg (by simp), uniLoop_natPrev d b rs (i + 1) i]
      rw [peakIdxsFrom, if_pos hr]
      simp only [Prod.mk.injEq, List.length_cons]
      exact ⟨by simp, by omega⟩
    · rw [uniLoop, if_neg hr, ih (i + 1), peakIdxsFrom, if_neg hr]

theorem consCounts_pairs (d : List ℚ) (b : ℚ) :
    ∀ l : List ℕ, consCounts d b l = (l.zip l.tail).map fun pc => deflCount d b pc.1 pc.2 := by
  intro l
  induction l with
  | nil => simp [consCounts]
  | cons p tail ih =>
    match tail, ih with
    | [], _ => simp [consCounts]
    | q :: rest, ih =>
      rw [consCounts, ih, defLoop_eq d b q (q - p) p 0 rfl]
      simp

theorem consCounts_length (d : List ℚ) (b : ℚ) :
    ∀ l : List ℕ, (consCounts d b l).length = l.length - 1 := by
  intro l
  induction l with
  | nil => simp [consCounts]
  | cons p tail ih =>
    match tail, ih with
    | [], _ => simp [consCounts]
    | q :: rest, ih => rw [consCounts]; simp [ih]

theorem peakIdxsFrom_count :
    ∀ (rs : List ℤ) (i : ℕ), (peakIdxsFrom i rs).length = rs.count 1 := by
  intro rs
  induction rs with
  | nil => intro i; simp [peakIdxsFrom]
  | cons r rs ih =>
    intro i
    by_cases hr : r = 1 <;> simp [peakIdxsFrom, hr, ih, List.count_cons]

theorem popVar_const_zero (l : List ℕ) (c : ℕ) (hc : ∀ x ∈ l, x = c) : popVar l = 0 := by
  rcases eq_or_ne l [] with hl | hl
  · simp [popVar, hl, popMean]
  · have hlen : (l.length : ℚ) ≠ 0 :=
      Nat.cast_ne_zero.mpr fun h0 => hl (List.length_eq_zero.mp h0)
    have hmap : l.map (fun x : ℕ => (x : ℚ)) = List.replicate l.length (c : ℚ) := by
      refine List.eq_replicate_iff.mpr ⟨by simp, ?_⟩
      intro bq hbq
      obtain ⟨x, hx, hxe⟩ := List.mem_map.mp hbq
      rw [← hxe, hc x hx]
    have hmean : popMean l = (c : ℚ) := by
      rw [popMean, hmap, List.sum_replicate, nsmul_eq_mul]
      field_simp
    have hdev : l.map (fun x : ℕ => ((x : ℚ) - popMean l) * ((x : ℚ) - popMean l)) =
        List.replicate l.length 0 := by
      refine List.eq_replicate_iff.mpr ⟨by simp, ?_⟩
      intro bq hbq
      obtain ⟨x, hx, hxe⟩ := List.mem_map.mp hbq
      rw [← hxe, hmean, hc x hx, sub_self, mul_zero]
    rw [popVar, hdev, List.sum_replicate]
    simp

/-- C4: `func_uniformity` returns 0 when fewer than 2 samples are
flagged; otherwise it returns the population standard deviation (sum of
squared deviations over the count, via `popVar`) of the deflection
counts, one per pair of consecutive flagged indices, each counting the
adjacent positions `(j, j+1)` between the two peaks whose amplitudes
cross the baseline (equality counts as at-or-below, per `crossed`).  A
constant deflection pattern yields 0. -/
theorem uniformity_spec (d : List ℚ) (r : List ℤ) (b : ℚ) (h : r.length = d.length) :
    (r.count 1 < 2 → func_uniformity d r b = 0) ∧
    (2 ≤ r.count 1 →
      func_uniformity d r b = Real.sqrt (popVar (consCounts d b (peakIdxs r)))) ∧
    consCounts d b (peakIdxs r) =
      ((peakIdxs r).zip (peakIdxs r).tail).map (fun pc => deflCount d b pc.1 pc.2) ∧
    (∀ c : ℕ, (∀ x ∈ consCounts d b (peakIdxs r), x = c) → func_uniformity d r b = 0) := by
  have hrun : uniLoop d b r 0 (-1) [] 0 = (consCounts d b (peakIdxs r), (peakIdxs r).length) := by
    simpa [peakIdxs] using uniLoop_run d b r 0 [] 0
  have hcnt : (peakIdxs r).length = r.count 1 := peakIdxsFrom_count r 0
  have hval : func_uniformity d r b =
      if (peakIdxs r).length < 2 then 0 else Real.sqrt (popVar (consCounts d b (peakIdxs r))) := by
    simp only [func_uniformity, hrun]
  refine ⟨?_, ?_, consCounts_pairs d b (peakIdxs r), ?_⟩
  · intro hlt
    rw [hval, if_pos (by omega)]
  · intro hge
    rw [hval, if_neg (by omega)]
  · intro c hcc
    rcases lt_or_le (r.count 1) 2 with hlt | hge
    · rw [hval, if_pos (by omega)]
    · rw [hval, if_neg (by omega), popVar_const_zero _ c hcc]
      simp

/-- Witness for C4: amplitudes 0, 2, 0 about baseline 1 with peaks at
the two ends give the single deflection count 2 (a constant list), so
the uniformity is 0. -/
theorem uniformity_spec_witness :
    ([1, 0, 1] : List ℤ).length = ([0, 2, 0] : List ℚ).length ∧
    (∀ x ∈ consCounts [0, 2, 0] 1 (peakIdxs [1, 0, 1]), x = 2) ∧
    func_uniformity [0, 2, 0] [1, 0, 1] 1 = 0 := by
  have hcc : consCounts [0, 2, 0] 1 (peakIdxs [1, 0, 1]) = [2] := by
    have h1 : peakIdxs [1, 0, 1] = [0, 2] := by decide
    have h3 : defLoop [0, 2, 0] 1 2 0 0 = 0 + deflCount [0, 2, 0] 1 0 2 :=
      defLoop_eq [0, 2, 0] 1 2 2 0 0 rfl
    have h4 : deflCount [0, 2, 0] 1 0 2 = 2 := by decide
    rw [h1, consCounts, consCounts, h3, h4]
  refine ⟨rfl, by simp [hcc], ?_⟩
  exact (uniformity_spec [0, 2, 0] [1, 0, 1] 1 rfl).2.2.2 2 (by simp [hcc])

/-! ## Bounds safety of the three loops -/

theorem get?_getD (l : List ℚ) : ∀ j, j < l.length → l.get? j = some (l.getD j 0) := by
  induction l with
  | nil => intro j hj; simp at hj
  | cons x xs ih =>
    intro j hj
    cases j with
    | zero => simp
    | succ j => simpa using ih j (by simpa using hj)

theorem avgAmpLoopC_eq (b : ℚ) :
    ∀ (r : List ℤ) (d : List ℚ), r.length ≤ d.length → ∀ s : ℚ × ℕ,
      avgAmpLoopC b r d s = some (avgAmpLoop b r d s) := by
  intro r
  induction r with
  | nil => intro d _ s; simp [avgAmpLoopC, avgAmpLoop]
  | cons r rs ih =>
    intro d hlen s
    match d with
    | [] => simp at hlen
    | y :: ds =>
      obtain ⟨total, k⟩ := s
      simp only [List.length_cons, Nat.add_le_add_iff_right] at hlen
      by_cases hr : r = 1 <;> simp [avgAmpLoopC, avgAmpLoop, hr, ih ds hlen]

theorem bpmLoopC_eq :
    ∀ (r : List ℤ) (ts : List ℚ), r.length ≤ ts.length → ∀ s : ℚ × ℚ × ℕ,
      bpmLoopC r ts s = some (bpmLoop r ts s) := by
  intro r
  induction r with
  | nil => intro ts _ s; simp [bpmLoopC, bpmLoop]
  | cons r rs ih =>
    intro ts hlen s
    match ts with
    | [] => simp at hlen
    | t :: ts' =>
      obtain ⟨tb, prev, cnt⟩ := s
      simp only [List.length_cons, Nat.add_le_add_iff_right] at hlen
      by_cases hr : r = 1 <;> by_cases hp : prev = -1 <;>
        simp [bpmLoopC, bpmLoop, hr, hp, ih ts' hlen]

theorem defLoopC_eq (d : List ℚ) (b : ℚ) (i : ℕ) (hi : i < d.length) :
    ∀ (n j cnt : ℕ), i - j = n → defLoopC d b i j cnt = some (defLoop d b i j cnt) := by
  intro n
  induction n with
  | zero => intro j cnt hn; rw [defLoopC, dif_neg (by omega), defLoop, dif_neg (by omega)]
  | succ n ihn =>
    intro j cnt hn
    have hj : j < i := by omega
    rw [defLoopC, dif_pos hj, defLoop, dif_pos hj,
      get?_getD d j (by omega), get?_getD d (j + 1) (by omega)]
    exact ihn (j + 1) _ (by omega)

theorem uniLoopC_eq (d : List ℚ) (b : ℚ) :
    ∀ (rs : List ℤ) (i : ℕ) (prev : ℤ) (count : List ℕ) (k : ℕ),
      i + rs.length ≤ d.length →
      uniLoopC d b rs i prev count k = some (uniLoop d b rs i prev count k) := by
  intro rs
  induction rs with
  | nil => intro i prev count k _; simp [uniLoopC, uniLoop]
  | cons r rs ih =>
    intro i prev count k hlen
    simp only [List.length_cons] at hlen
    have hlen' : (i + 1) + rs.length ≤ d.length := by omega
    by_cases hr : r = 1
    · by_cases hp : prev ≠ -1
      · rw [uniLoopC, if_pos hr, if_pos hp, uniLoop, if_pos hr, if_pos hp,
          defLoopC_eq d b i (by omega) (i - prev.toNat) prev.toNat 0 rfl]
        exact ih (i + 1) i _ _ hlen'
      · rw [uniLoopC, if_pos hr, if_neg hp, uniLoop, if_pos hr, if_neg hp]
        exact ih (i + 1) i count (k + 1) hlen'
    · rw [uniLoopC, if_neg hr, uniLoop, if_neg hr]
      exact ih (i + 1) prev count k hlen'

/-- C10: for every input, the loader emits timestamps and amplitudes of
equal length, with the peak-flag vector at most one shorter; under that
shape every indexed access in the three estimators is in bounds (the
checked variants return `some` of the unchecked runs), and when the
uniformity estimator divides, its divisor — the number of deflection
counts — is the number of flagged peaks minus one, at least one. -/
theorem loader_shape_and_safety (toks : List Tok) (b : ℚ) :
    (loadTrace toks).1.length = (loadTrace toks).2.1.length ∧
    (loadTrace toks).2.2.length ≤ (loadTrace toks).1.length ∧
    (loadTrace toks).1.length ≤ (loadTrace toks).2.2.length + 1 ∧
    func_avg_amp_chk (loadTrace toks).2.1 (loadTrace toks).2.2 b =
      some (func_avg_amp (loadTrace toks).2.1 (loadTrace toks).2.2 b) ∧
    func_bpm_chk (loadTrace toks).1 (loadTrace toks).2.2 =
      some (func_bpm (loadTrace toks).1 (loadTrace toks).2.2) ∧
    func_uniformity_chk (loadTrace toks).2.1 (loadTrace toks).2.2 b =
      some (func_uniformity (loadTrace toks).2.1 (loadTrace toks).2.2 b) ∧
    (2 ≤ (loadTrace toks).2.2.count 1 →
      (uniLoop (loadTrace toks).2.1 b (loadTrace toks).2.2 0 (-1) [] 0).1.length =
        (loadTrace toks).2.2.count 1 - 1 ∧
      1 ≤ (uniLoop (loadTrace toks).2.1 b (loadTrace toks).2.2 0 (-1) [] 0).1.length) := by
  obtain ⟨h1, h2, h3⟩ := loadTrace_shape toks
  have hrd : (loadTrace toks).2.2.length ≤ (loadTrace toks).2.1.length := by omega
  have hrt : (loadTrace toks).2.2.length ≤ (loadTrace toks).1.length := h2
  refine ⟨h1, h2, h3, ?_, ?_, ?_, ?_⟩
  · simp [func_avg_amp_chk, func_avg_amp, avgAmpLoopC_eq b _ _ hrd]
  · simp [func_bpm_chk, func_bpm, bpmLoopC_eq _ _ hrt]
  · have hU : uniLoopC (loadTrace toks).2.1 b (loadTrace toks).2.2 0 (-1) [] 0 =
        some (uniLoop (loadTrace toks).2.1 b (loadTrace toks).2.2 0 (-1) [] 0) :=
      uniLoopC_eq (loadTrace toks).2.1 b (loadTrace toks).2.2 0 (-1) [] 0 (by omega)
    simp [func_uniformity_chk, func_uniformity, hU]
  · intro hcount
    have hrun := uniLoop_run (loadTrace toks).2.1 b (loadTrace toks).2.2 0 [] 0
    have hlen : (uniLoop (loadTrace toks).2.1 b (loadTrace toks).2.2 0 (-1) [] 0).1.length =
        (peakIdxsFrom 0 (loadTrace toks).2.2).length - 1 := by
      rw [hrun]
      simpa using consCounts_length (loadTrace toks).2.1 b (peakIdxsFrom 0 (loadTrace toks).2.2)
    rw [hlen, peakIdxsFrom_count]
    omega

/-- Witness for C10: a file of two full records, both flagged, reaches
the division in the uniformity estimator with exactly one count. -/
theorem loader_shape_and_safety_witness :
    2 ≤ ((loadTrace [Tok.dbl 0, Tok.dbl 0, Tok.int 1, Tok.dbl 1, Tok.dbl 2, Tok.int 1]).2.2.count 1) ∧
    (uniLoop (loadTrace [Tok.dbl 0, Tok.dbl 0, Tok.int 1, Tok.dbl 1, Tok.dbl 2, Tok.int 1]).2.1 1
        (loadTrace [Tok.dbl 0, Tok.dbl 0, Tok.int 1, Tok.dbl 1, Tok.dbl 2, Tok.int 1]).2.2
        0 (-1) [] 0).1.length =
      (loadTrace [Tok.dbl 0, Tok.dbl 0, Tok.int 1, Tok.dbl 1, Tok.dbl 2, Tok.int 1]).2.2.count 1 - 1 := by
  have h := (loader_shape_and_safety
    [Tok.dbl 0, Tok.dbl 0, Tok.int 1, Tok.dbl 1, Tok.dbl 2, Tok.int 1] 1).2.2.2.2.2.2
  exact ⟨by decide, (h (by decide)).1⟩

/-! ## Baseline estimator -/

theorem sortedListsEq (l : List ℚ) :
    List.insertionSort (· ≤ ·) l = l.mergeSort fun a b => decide (a ≤ b) := by
  have hms : List.Sorted (· ≤ ·) (l.mergeSort fun a b => decide (a ≤ b)) := by
    have h := @List.sorted_mergeSort ℚ (fun a b => decide (a ≤ b))
      (fun a b c hab hbc => by simp at hab hbc ⊢; exact le_trans hab hbc)
      (fun a b => by simpa using le_total a b) l
    exact List.Pairwise.imp (by simp) h
  exact List.eq_of_perm_of_sorted
    ((List.perm_insertionSort _ l).trans (List.mergeSort_perm l _).symm)
    (List.sorted_insertionSort _ l) hms

/-- C5: `func_baseline` is the statistical median — the middle of the
ascending sort for odd length, the mean of the two middle elements for
even length (`medianSpec`, computed with an independent sort) — hence
invariant under permutation of its input, and the identity on
singletons. -/
theorem baseline_median (l l' : List ℚ) (a : ℚ) :
    (l ≠ [] → func_baseline l = medianSpec l) ∧
    (l.Perm l' → func_baseline l = func_baseline l') ∧
    func_baseline [a] = a := by
  refine ⟨?_, ?_, ?_⟩
  · intro _
    simp only [func_baseline, medianSpec, sortedListsEq]
  · intro hperm
    have hsort : List.insertionSort (· ≤ ·) l = List.insertionSort (· ≤ ·) l' :=
      List.eq_of_perm_of_sorted
        ((List.perm_insertionSort _ l).trans (hperm.trans (List.perm_insertionSort _ l').symm))
        (List.sorted_insertionSort _ l) (List.sorted_insertionSort _ l')
    simp only [func_baseline, hsort, hperm.length_eq]
  · simp [func_baseline, List.insertionSort, List.orderedInsert]

/-- Witness for C5: a two-element permutation, a concrete median, and a
singleton. -/
theorem baseline_median_witness :
    ([3, 1] : List ℚ).Perm [1, 3] ∧
    func_baseline [3, 1] = func_baseline [1, 3] ∧
    ([2, 7] : List ℚ) ≠ [] ∧
    func_baseline [2, 7] = medianSpec [2, 7] ∧
    func_baseline [(5 : ℚ)] = 5 := by
  have hp : ([3, 1] : List ℚ).Perm [1, 3] := by decide
  exact ⟨hp, (baseline_median [3, 1] [1, 3] 0).2.1 hp, by simp,
    (baseline_median [2, 7] [2, 7] 0).1 (by simp), (baseline_median [] [] 5).2.2⟩

/-! ## Shock decision -/

/-- C2: the program prints "NO, DO NOT SHOCK" exactly when one of the
four threshold conditions holds, and "YES, SHOCK!" exactly otherwise;
the verdict is a function of the four scalars alone. -/
theorem shock_decision_rule (baseline avg_amp bpm : ℚ) (uniformity : ℝ) :
    (shockVerdict baseline avg_amp bpm uniformity = "NO, DO NOT SHOCK" ↔
      (avg_amp < 0.1 ∨ baseline > 1.0 ∨ (uniformity ≥ 1.0 ∧ bpm < 200.0) ∨ bpm ≤ 150.0)) ∧
    (shockVerdict baseline avg_amp bpm uniformity = "YES, SHOCK!" ↔
      ¬ (avg_amp < 0.1 ∨ baseline > 1.0 ∨ (uniformity ≥ 1.0 ∧ bpm < 200.0) ∨ bpm ≤ 150.0)) := by
  have hne : ("YES, SHOCK!" : String) ≠ "NO, DO NOT SHOCK" := by decide
  by_cases hc : avg_amp < 0.1 ∨ baseline > 1.0 ∨ (uniformity ≥ 1.0 ∧ bpm < 200.0) ∨ bpm ≤ 150.0
  · unfold shockVerdict
    rw [if_pos hc]
    exact ⟨⟨fun _ => hc, fun _ => rfl⟩,
      ⟨fun heq => absurd heq.symm hne, fun hn => absurd hc hn⟩⟩
  · unfold shockVerdict
    rw [if_neg hc]
    exact ⟨⟨fun heq => absurd heq hne, fun hcc => absurd hcc hc⟩,
      ⟨fun _ => hc, fun _ => rfl⟩⟩

/-! ## Pipeline short-circuit -/

/-- C7: whenever the quality gate reports not-clean, the pipeline emits
exactly the start banner and the refusal lines, reports "NO, DO NOT
SHOCK", and never reaches the visualizer or any of the four
estimators. -/
theorem unclean_short_circuit (toks : List Tok) (clean_ecg : List ℚ → Bool)
    (h : clean_ecg (loadTrace toks).2.1 = false) :
    pipeline toks clean_ecg =
      [Ev.line "** Starting AED Software **", Ev.line "",
       Ev.line "Is signal clean? NO, DO NOT SHOCK", Ev.line "", Ev.line "** Done **"] ∧
    Ev.line "Is signal clean? NO, DO NOT SHOCK" ∈ pipeline toks clean_ecg ∧
    Ev.visualize ∉ pipeline toks clean_ecg ∧
    (∀ v : ℚ, Ev.baseline v ∉ pipeline toks clean_ecg ∧ Ev.avgAmp v ∉ pipeline toks clean_ecg ∧
      Ev.bpm v ∉ pipeline toks clean_ecg) ∧
    (∀ u : ℝ, Ev.uniformity u ∉ pipeline toks clean_ecg) := by
  have hp : pipeline toks clean_ecg =
      [Ev.line "** Starting AED Software **", Ev.line "",
       Ev.line "Is signal clean? NO, DO NOT SHOCK", Ev.line "", Ev.line "** Done **"] := by
    simp only [pipeline, h]
    simp
  refine ⟨hp, ?_, ?_, ?_, ?_⟩
  · rw [hp]; simp
  · rw [hp]; simp
  · intro v; rw [hp]; simp
  · intro u; rw [hp]; simp

/-- Witness for C7: the constantly-false gate on the empty trace. -/
theorem unclean_short_circuit_witness :
    (fun _ : List ℚ => false) (loadTrace []).2.1 = false ∧
    Ev.line "Is signal clean? NO, DO NOT SHOCK" ∈ pipeline [] (fun _ => false) ∧
    Ev.visualize ∉ pipeline [] (fun _ => false) := by
  have h := unclean_short_circuit [] (fun _ => false) rfl
  exact ⟨rfl, h.2.1, h.2.2.1⟩

/-! ## End-to-end scenario A -/

/-- C8: on the clean trace with timestamps 0..9, amplitudes alternating
0/2 and peaks at the even indices, the pipeline computes baseline 1,
average amplitude 1 and bpm 30; `baseline > 1.0` is false at equality,
`bpm <= 150.0` holds, and the verdict is "NO, DO NOT SHOCK". -/
theorem scenario_A :
    func_baseline dA = 1 ∧
    func_avg_amp dA rA (func_baseline dA) = 1 ∧
    func_bpm tsA rA = 30 ∧
    ¬ (func_baseline dA > 1.0) ∧
    func_bpm tsA rA ≤ 150.0 ∧
    shockVerdict (func_baseline dA) (func_avg_amp dA rA (func_baseline dA)) (func_bpm tsA rA)
      (func_uniformity dA rA (func_baseline dA)) = "NO, DO NOT SHOCK" := by
  have hb : func_baseline dA = 1 := by
    simp [func_baseline, dA, List.insertionSort, List.orderedInsert]
    norm_num
  have hbpm : func_bpm tsA rA = 30 := by
    simp [func_bpm, bpmLoop, tsA, rA]
    norm_num
  have ha : func_avg_amp dA rA 1 = 1 := by
    simp [func_avg_amp, avgAmpLoop, dA, rA]
    norm_num
  refine ⟨hb, by rw [hb]; exact ha, hbpm, by rw [hb]; norm_num, by rw [hbpm]; norm_num, ?_⟩
  unfold shockVerdict
  rw [if_pos (Or.inr (Or.inr (Or.inr (show func_bpm tsA rA ≤ 150.0 by rw [hbpm]; norm_num))))]

end AED
